import Mathlib

/-! Buffer bridge and BLAS level-1 wrappers of the Koka `math` library.

Shallow embedding of `src/math/inline/vector.c` and
`src/math/inline/linalg-blas.c`.

* The C heap is explicit state (`Heap`): every address holds one block, a list
  of scalars whose length is the block's capacity.  An access outside a block
  is undefined behaviour in C and is `none` here.
* `kk_ssize_t` lengths are `Int`; a loop `for (i = 0; i < n; i++)` runs
  `n.toNat` times.  Allocation always succeeds and hands out a new address.
* Scalars (`double`) are an arbitrary type `D`.  The models of `daxpy`, `ddot`,
  `dscal` and `drot` only use its `+`, `-`, `*` and `0`, with no law assumed;
  sums, comparisons and absolute values (`ddot` as a sum, `drotm`, `idamax`)
  are stated over a linearly ordered ring, that is with exact arithmetic.
* The BLAS kernels are not part of the repository: every wrapper takes its
  kernel as a parameter, and the `cblas_*` definitions are reference models of
  the kernels, used where a statement is about what the kernel computes.
-/

namespace KokaMath

/-! ## The C heap -/

/-- The C heap: `store p` is the block at address `p` (its length is the
capacity of the block), `next` is the first address `malloc` has not handed out
yet, and `uninit i` is what a freshly allocated block holds at offset `i`
before anything is written to it. -/
structure Heap (D : Type) where
  store : Nat → List D
  next : Nat
  uninit : Nat → D

/-- Read of `p[i]`; `none` outside the block. -/
def Heap.read {D : Type} (heap : Heap D) (p i : Nat) : Option D :=
  (heap.store p)[i]?

/-- Assignment `p[i] = d`; `none` outside the block. -/
def Heap.write {D : Type} (heap : Heap D) (p i : Nat) (d : D) : Option (Heap D) :=
  if i < (heap.store p).length then
    some { heap with store := Function.update heap.store p ((heap.store p).set i d) }
  else none

/-- Replace the whole block at `p` (used by the kernel models). -/
def Heap.setBlock {D : Type} (heap : Heap D) (p : Nat) (blk : List D) : Heap D :=
  { heap with store := Function.update heap.store p blk }

/-- Allocation of `n` scalars, `malloc(sizeof(double) * n)`: hands out the
address `heap.next`; the new block holds uninitialised contents. -/
def malloc {D : Type} (n : Nat) (heap : Heap D) : Nat × Heap D :=
  (heap.next,
   { heap with
     store := Function.update heap.store heap.next ((List.range n).map heap.uninit)
     next := heap.next + 1 })

/-- The loop `for (i = 0; i < n; i++) body`, threading the state through the
iterations `0, 1, …, n - 1`; it stops with `none` as soon as an iteration is
undefined. -/
def forLoop {σ : Type} (body : Nat → σ → Option σ) : Nat → σ → Option σ
  | 0, s => some s
  | k + 1, s => (forLoop body k s).bind (body k)

/-! ## Runtime values -/

/-- A boxed runtime value: the null box or a boxed double. -/
inductive kk_box_t (D : Type) where
  | null : kk_box_t D
  | double : D → kk_box_t D
  deriving DecidableEq

/-- A managed vector: its length and its boxes, in order. -/
abbrev kk_vector_t (D : Type) := List (kk_box_t D)

def kk_box_null {D : Type} : kk_box_t D := kk_box_t.null

def kk_double_box {D : Type} (d : D) : kk_box_t D := kk_box_t.double d

/-- Unboxing a double; undefined on a box that holds none. -/
def kk_double_unbox {D : Type} : kk_box_t D → Option D
  | kk_box_t.double d => some d
  | kk_box_t.null => none

/-- The value `kk_vector_alloc(n, def)`: `n` boxes, all `def`. -/
def kk_vector_alloc {D : Type} (n : Int) (dflt : kk_box_t D) : kk_vector_t D :=
  List.replicate n.toNat dflt

/-- The length that `kk_vector_buf_borrow(v, &length, ctx)` stores. -/
def kk_vector_buf_borrow_length {D : Type} (v : kk_vector_t D) : Int :=
  (v.length : Int)

/-- An owned C pointer (`std/cextern` `owned-c`): the address it wraps. -/
structure kk_std_cextern__owned_c where
  owned : Nat
  deriving DecidableEq

def kk_std_cextern_c_own (p : Nat) : kk_std_cextern__owned_c := ⟨p⟩

/-- The address held in the `owned` field, as `kk_cptr_raw_unbox_borrowed` reads it. -/
def kk_cptr_raw_unbox_borrowed (owned : Nat) : Nat := owned

/-- The address held in the `owned` field, as `kk_intptr_unbox` reads it. -/
def kk_intptr_unbox (owned : Nat) : Nat := owned

/-- The `blasvector` struct: a length field and the owned buffer. -/
structure kk_math_vector__blasvector where
  length : Int
  internal : kk_std_cextern__owned_c
  deriving DecidableEq

def kk_math_vector__new_Blasvector (length : Int) (internal : kk_std_cextern__owned_c) :
    kk_math_vector__blasvector := ⟨length, internal⟩

/-- The `blasmatrix` struct: rows, columns and the owned buffer. -/
structure kk_math_matrix__blasmatrix where
  rows : Int
  cols : Int
  internal : kk_std_cextern__owned_c
  deriving DecidableEq

def kk_math_matrix__new_Blasmatrix (rows cols : Int) (internal : kk_std_cextern__owned_c) :
    kk_math_matrix__blasmatrix := ⟨rows, cols, internal⟩

/-- Capacity of the buffer a vector points to. -/
def capacity {D : Type} (heap : Heap D) (bv : kk_math_vector__blasvector) : Nat :=
  (heap.store bv.internal.owned).length

/-- The data-model invariant of a bridged vector: its length field does not
exceed the capacity of its buffer. -/
def LengthWithinCapacity {D : Type} (heap : Heap D) (bv : kk_math_vector__blasvector) : Prop :=
  bv.length ≤ (capacity heap bv : Int)

instance decLengthWithinCapacity {D : Type} (heap : Heap D)
    (bv : kk_math_vector__blasvector) : Decidable (LengthWithinCapacity heap bv) :=
  inferInstanceAs (Decidable (bv.length ≤ (capacity heap bv : Int)))

/-! ## `vector.c` -/

/-- Embedding of `kk_vector_blasvector` (vector.c, lines 4-17). -/
def kk_vector_blasvector {D : Type} (v : kk_vector_t D) (heap : Heap D) :
    Option (kk_math_vector__blasvector × Heap D) :=
  let length : Int := kk_vector_buf_borrow_length v
  let vec_buf := v
  let (buf, heap1) := malloc length.toNat heap
  (forLoop
      (fun i hp => (vec_buf[i]?).bind fun box =>
        (kk_double_unbox box).bind fun d => hp.write buf i d)
      length.toNat heap1).map fun heap2 =>
    let owned_buf := kk_std_cextern_c_own buf
    (kk_math_vector__new_Blasvector length owned_buf, heap2)

/-- Embedding of `kk_blasvector_vector` (vector.c, lines 19-33).  The managed vector it
builds is a value; the C heap is only read. -/
def kk_blasvector_vector {D : Type} (bv : kk_math_vector__blasvector) (heap : Heap D) :
    Option (kk_vector_t D × Heap D) :=
  let buf := kk_intptr_unbox bv.internal.owned
  let out_vec : kk_vector_t D := kk_vector_alloc bv.length kk_box_null
  (forLoop
      (fun i out_vec_buf => (heap.read buf i).bind fun d =>
        if i < out_vec_buf.length then some (out_vec_buf.set i (kk_double_box d)) else none)
      bv.length.toNat out_vec).map fun out_vec => (out_vec, heap)

/-! ## Reference models of the BLAS kernels

Every call in `linalg-blas.c` passes the stride `1` for each vector operand;
the stride arguments are left out of the kernel signatures. -/

/-- The block `xs` with `f i` applied to every cell `i < k`; the cells from `k`
on are kept, and so is the capacity. -/
def updateBelow {D : Type} (k : Nat) (f : Nat → D → D) (xs : List D) : List D :=
  xs.mapIdx fun i xi => if i < k then f i xi else xi

/-- Modelled from the spec: the kernel `cblas_daxpy`, which is not in the
repository.  `y[i] ← alpha * x[i] + y[i]` for `i < n`; nothing happens for
`n ≤ 0`; undefined when `n` exceeds the capacity of an operand. -/
def cblas_daxpy {D : Type} [Zero D] [Add D] [Mul D] (n : Int) (alpha : D) (x y : Nat) (heap : Heap D) : Option (Heap D) :=
  let xs := heap.store x
  let ys := heap.store y
  if n.toNat ≤ xs.length ∧ n.toNat ≤ ys.length then
    some (heap.setBlock y
      (updateBelow n.toNat (fun i yi => alpha * xs.getD i 0 + yi) ys))
  else none

/-- The accumulation loop of the reference `ddot`:
`dtemp = dtemp + dx(i) * dy(i)` for `i = 0, …, k - 1`, starting from `0`. -/
def ddotLoop {D : Type} [Zero D] [Add D] [Mul D] (xs ys : List D) : Nat → D
  | 0 => 0
  | k + 1 => ddotLoop xs ys k + xs.getD k 0 * ys.getD k 0

/-- Modelled from the spec: the kernel `cblas_ddot`, which is not in the
repository.  It reads both operands (they are `const`), returns
`Σ_{i<n} x[i] * y[i]`, and is undefined when `n` exceeds a capacity. -/
def cblas_ddot {D : Type} [Zero D] [Add D] [Mul D] (n : Int) (x y : Nat) (heap : Heap D) : Option D :=
  let xs := heap.store x
  let ys := heap.store y
  if n.toNat ≤ xs.length ∧ n.toNat ≤ ys.length then some (ddotLoop xs ys n.toNat) else none

/-- Modelled from the spec: the kernel `cblas_drot`, which is not in the
repository: the Givens update `x[i] ← c * x[i] + s * y[i]`,
`y[i] ← c * y[i] - s * x[i]` for `i < n`, both right-hand sides taken before
the update.  Undefined when `n` exceeds a capacity, and when `n > 0` and the
two operands are the same block (the result would depend on the order in which
an implementation stores the two values). -/
def cblas_drot {D : Type} [Zero D] [Add D] [Sub D] [Mul D] (n : Int) (x y : Nat) (c s : D) (heap : Heap D) : Option (Heap D) :=
  let xs := heap.store x
  let ys := heap.store y
  if x = y ∧ 0 < n.toNat then none
  else if n.toNat ≤ xs.length ∧ n.toNat ≤ ys.length then
    some ((heap.setBlock x
        (updateBelow n.toNat (fun i xi => c * xi + s * ys.getD i 0) xs)).setBlock y
        (updateBelow n.toNat (fun i yi => c * yi - s * xs.getD i 0) ys))
  else none

/-- Modelled from the spec: the kernel `cblas_drotm`, which is not in the
repository, after the reference BLAS: with `param = [flag, h11, h21, h12, h22]`,
nothing happens for `n ≤ 0` or `flag = -2`; for `flag < 0` the full matrix is
applied, for `flag = 0` the matrix with unit diagonal, otherwise the matrix
with off-diagonal `1, -1`.  Undefined as `cblas_drot` is. -/
def cblas_drotm {D : Type} [LinearOrderedRing D] (n : Int) (x y : Nat) (param : Fin 5 → D) (heap : Heap D) : Option (Heap D) :=
  let xs := heap.store x
  let ys := heap.store y
  let dflag := param 0
  let dh11 := param 1
  let dh21 := param 2
  let dh12 := param 3
  let dh22 := param 4
  if n.toNat = 0 ∨ dflag = -2 then some heap
  else if x = y then none
  else if n.toNat ≤ xs.length ∧ n.toNat ≤ ys.length then
    if dflag < 0 then
      some ((heap.setBlock x
          (updateBelow n.toNat (fun i w => w * dh11 + ys.getD i 0 * dh12) xs)).setBlock y
          (updateBelow n.toNat (fun i z => xs.getD i 0 * dh21 + z * dh22) ys))
    else if dflag = 0 then
      some ((heap.setBlock x
          (updateBelow n.toNat (fun i w => w + ys.getD i 0 * dh12) xs)).setBlock y
          (updateBelow n.toNat (fun i z => xs.getD i 0 * dh21 + z) ys))
    else
      some ((heap.setBlock x
          (updateBelow n.toNat (fun i w => w * dh11 + ys.getD i 0) xs)).setBlock y
          (updateBelow n.toNat (fun i z => -xs.getD i 0 + dh22 * z) ys))
  else none

/-- Modelled from the spec: the kernel `cblas_dscal`, which is not in the
repository.  `x[i] ← alpha * x[i]` for `i < n`; undefined when `n` exceeds the
capacity. -/
def cblas_dscal {D : Type} [Mul D] (n : Int) (alpha : D) (x : Nat) (heap : Heap D) : Option (Heap D) :=
  let xs := heap.store x
  if n.toNat ≤ xs.length then
    some (heap.setBlock x (updateBelow n.toNat (fun _ xi => alpha * xi) xs))
  else none

/-- Embedding of `kk_axpy` (linalg-blas.c, lines 20-32). -/
def kk_axpy {D : Type} (daxpy : Int → D → Nat → Nat → Heap D → Option (Heap D))
    (a b : kk_math_vector__blasvector) (scalar : D) (heap : Heap D) :
    Option (kk_math_vector__blasvector × Heap D) :=
  let length := a.length
  let length := if length > b.length then b.length else length
  let b := { b with length := length }
  (daxpy length scalar (kk_cptr_raw_unbox_borrowed a.internal.owned)
      (kk_cptr_raw_unbox_borrowed b.internal.owned) heap).map fun heap1 => (b, heap1)

/-- Embedding of `kk_dot` (linalg-blas.c, lines 34-46). -/
def kk_dot {D : Type} (ddot : Int → Nat → Nat → Heap D → Option D)
    (a b : kk_math_vector__blasvector) (heap : Heap D) : Option (D × Heap D) :=
  let length := a.length
  let length := if length > b.length then b.length else length
  let a_buf := kk_cptr_raw_unbox_borrowed a.internal.owned
  let b_buf := kk_cptr_raw_unbox_borrowed b.internal.owned
  (ddot length a_buf b_buf heap).map fun result => (result, heap)

/-- Embedding of `kk_rot` (linalg-blas.c, lines 55-67). -/
def kk_rot {D : Type} (drot : Int → Nat → Nat → D → D → Heap D → Option (Heap D))
    (a b : kk_math_vector__blasvector) (scalar1 scalar2 : D) (heap : Heap D) :
    Option ((kk_math_vector__blasvector × kk_math_vector__blasvector) × Heap D) :=
  let length := a.length
  let length := if length > b.length then b.length else length
  (drot length (kk_cptr_raw_unbox_borrowed a.internal.owned)
      (kk_cptr_raw_unbox_borrowed b.internal.owned) scalar1 scalar2 heap).map fun heap1 =>
    ((a, b), heap1)

/-- Embedding of `kk_rotm` (linalg-blas.c, lines 80-95).  The local array
`h[5]` is built from `flag` and the first four cells of the matrix buffer. -/
def kk_rotm {D : Type} (drotm : Int → Nat → Nat → (Fin 5 → D) → Heap D → Option (Heap D))
    (a b : kk_math_vector__blasvector) (flag : D) (h_matrix : kk_math_matrix__blasmatrix)
    (heap : Heap D) :
    Option ((kk_math_vector__blasvector × kk_math_vector__blasvector) × Heap D) :=
  let length := a.length
  let length := if length > b.length then b.length else length
  let m := kk_cptr_raw_unbox_borrowed h_matrix.internal.owned
  (heap.read m 0).bind fun m0 =>
  (heap.read m 1).bind fun m1 =>
  (heap.read m 2).bind fun m2 =>
  (heap.read m 3).bind fun m3 =>
    let h : Fin 5 → D := ![flag, m0, m1, m2, m3]
    (drotm length (kk_cptr_raw_unbox_borrowed a.internal.owned)
        (kk_cptr_raw_unbox_borrowed b.internal.owned) h heap).map fun heap1 =>
      ((a, b), heap1)

/-- Embedding of `kk_rotmg` (linalg-blas.c, lines 97-115).  The kernel gets
the locals `d1`, `d2`, `x1` and the array `param` by address and returns their
new values; `y1` is passed by value. -/
def kk_rotmg {D : Type} [Zero D]
    (drotmg : D → D → D → D → (Fin 5 → D) → D × D × D × (Fin 5 → D))
    (d1 d2 x1 y1 : D) (heap : Heap D) :
    ((D × D × D × D) × D × kk_math_matrix__blasmatrix) × Heap D :=
  let param : Fin 5 → D := fun _ => 0
  let (d1, d2, x1, param) := drotmg d1 d2 x1 y1 param
  let (h_matrix_buf, heap1) := malloc 4 heap
  let owned_buf := kk_std_cextern_c_own h_matrix_buf
  let h_matrix := kk_math_matrix__new_Blasmatrix 2 2 owned_buf
  let tuple := (d1, d2, x1, y1)
  ((tuple, param 0, h_matrix), heap1)

/-- Embedding of `kk_scal` (linalg-blas.c, lines 117-122). -/
def kk_scal {D : Type} (dscal : Int → D → Nat → Heap D → Option (Heap D))
    (bv : kk_math_vector__blasvector) (scalar : D) (heap : Heap D) :
    Option (kk_math_vector__blasvector × Heap D) :=
  (dscal bv.length scalar (kk_cptr_raw_unbox_borrowed bv.internal.owned) heap).map fun heap1 =>
    (bv, heap1)

/-- A heap over the integers with `[1, 2, 3]` at address `0` and
`[10, 20, 30]` at address `1`. -/
def heapAxpy3 : Heap Int :=
  ⟨fun p => if p = 0 then [1, 2, 3] else if p = 1 then [10, 20, 30] else [], 2, fun _ => 0⟩

/-- A heap over the integers with `[1, 2]` at address `0` and `[10, 20, 30]` at
address `1`. -/
def heapAxpy2 : Heap Int :=
  ⟨fun p => if p = 0 then [1, 2] else if p = 1 then [10, 20, 30] else [], 2, fun _ => 0⟩

/-- A heap over the integers with `[1, 2, 3]` at address `0`, `[10, 20]` at
address `1` and the matrix cells `[2, 0, 0, 2]` at address `2`. -/
def heapRot : Heap Int :=
  ⟨fun p => if p = 0 then [1, 2, 3] else if p = 1 then [10, 20]
    else if p = 2 then [2, 0, 0, 2] else [], 3, fun _ => 0⟩

/-- A heap over the integers with `[1, 2, 3]` at address `0` and `[4, 5, 6]` at
address `1`. -/
def heapDot : Heap Int :=
  ⟨fun p => if p = 0 then [1, 2, 3] else if p = 1 then [4, 5, 6] else [], 2, fun _ => 0⟩

/-- A heap over the integers on which nothing is allocated. -/
def heapEmpty : Heap Int :=
  ⟨fun _ => [], 0, fun _ => 0⟩

/-! ## Round trip of the buffer bridge -/

theorem forLoop_succ {σ : Type} (body : Nat → σ → Option σ) (k : Nat) (s : σ) :
    forLoop body (k + 1) s = (forLoop body k s).bind (body k) := rfl

/-- The copy loop of `kk_vector_blasvector`: after `k` iterations the block at
`buf` keeps its capacity and its first `k` cells hold the first `k` elements. -/
theorem unbox_loop_spec {D : Type} (s : List D) (buf : Nat) (heap1 : Heap D)
    (hcap : (heap1.store buf).length = s.length) (k : Nat) (hk : k ≤ s.length) :
    ∃ hp : Heap D,
      forLoop
        (fun i hp => ((s.map kk_double_box)[i]?).bind fun box =>
          (kk_double_unbox box).bind fun d => hp.write buf i d) k heap1 = some hp ∧
      (hp.store buf).length = s.length ∧
      (∀ i, i < k → (hp.store buf)[i]? = s[i]?) ∧
      (∀ p, p ≠ buf → hp.store p = heap1.store p) ∧
      hp.next = heap1.next ∧ hp.uninit = heap1.uninit := by
  induction k with
  | zero => exact ⟨heap1, rfl, hcap, by intro i hi; omega, fun _ _ => rfl, rfl, rfl⟩
  | succ k ih =>
    obtain ⟨hp, hrun, hlen, hpre, hframe, hnext, hun⟩ := ih (by omega)
    have hk' : k < s.length := by omega
    refine ⟨{ hp with store := Function.update hp.store buf ((hp.store buf).set k s[k]) }, ?_, ?_, ?_, ?_, hnext, hun⟩
    · rw [forLoop_succ, hrun]
      simp [List.getElem?_eq_getElem, hk', kk_double_box, kk_double_unbox, Heap.write, hlen]
    · simp [hlen]
    · intro i hi
      simp only [Function.update_same]
      by_cases hik : i = k
      · subst hik
        simp [List.getElem?_eq_getElem, hk', hlen]
      · rw [List.getElem?_set_ne (Ne.symm hik)]
        exact hpre i (by omega)
    · intro p hp'
      simp [Function.update_noteq hp', hframe p hp']

/-- What `kk_vector_blasvector` returns on boxed doubles: a vector at the fresh
address `heap.next` whose length field is the number of elements and whose
block holds exactly the elements; every other block is left alone. -/
theorem kk_vector_blasvector_spec {D : Type} (s : List D) (heap : Heap D) :
    ∃ heap1 : Heap D,
      kk_vector_blasvector (s.map kk_double_box) heap
        = some (⟨(s.length : Int), ⟨heap.next⟩⟩, heap1) ∧
      heap1.store heap.next = s ∧
      (∀ p, p ≠ heap.next → heap1.store p = heap.store p) := by
  obtain ⟨hp, hrun, hlen, hpre, hframe, -, -⟩ :=
    unbox_loop_spec s heap.next (malloc s.length heap).2 (by simp [malloc]) s.length le_rfl
  refine ⟨hp, ?_, ?_, ?_⟩
  · simp only [kk_vector_blasvector, kk_vector_buf_borrow_length, List.length_map,
      Int.toNat_ofNat]
    simp only [malloc] at hrun
    simp only [malloc, hrun, kk_math_vector__new_Blasvector, kk_std_cextern_c_own,
      Option.map_some']
  · apply List.ext_getElem? ; intro i
    by_cases hi : i < s.length
    · exact hpre i hi
    · rw [List.getElem?_eq_none (by omega), List.getElem?_eq_none (by omega)]
  · intro p hp'
    rw [hframe p hp']
    simp [malloc, Function.update_noteq hp']

/-- The boxing loop of `kk_blasvector_vector`: after `k` iterations the first
`k` boxes hold the first `k` cells of the block. -/
theorem box_loop_spec {D : Type} (heap : Heap D) (buf : Nat) (out0 : kk_vector_t D)
    (k : Nat) (hk : k ≤ out0.length) (hcap : k ≤ (heap.store buf).length) :
    ∃ out : kk_vector_t D,
      forLoop
        (fun i out_vec_buf => (heap.read buf i).bind fun d =>
          if i < out_vec_buf.length then some (out_vec_buf.set i (kk_double_box d)) else none)
        k out0 = some out ∧
      out.length = out0.length ∧
      (∀ i, i < k → out[i]? = ((heap.store buf)[i]?).map kk_double_box) ∧
      (∀ i, k ≤ i → out[i]? = out0[i]?) := by
  induction k with
  | zero => exact ⟨out0, rfl, rfl, by intro i hi; omega, fun _ _ => rfl⟩
  | succ k ih =>
    obtain ⟨out, hrun, hlen, hpre, hpost⟩ := ih (by omega) (by omega)
    have hk1 : k < (heap.store buf).length := by omega
    refine ⟨out.set k (kk_double_box (heap.store buf)[k]), ?_, ?_, ?_, ?_⟩
    · rw [forLoop_succ, hrun]
      have : k < out.length := by omega
      simp [Heap.read, List.getElem?_eq_getElem, hk1, this]
    · simp [hlen]
    · intro i hi
      by_cases hik : i = k
      · subst hik
        have : i < out.length := by omega
        simp [List.getElem?_eq_getElem, hk1, this]
      · rw [List.getElem?_set_ne (Ne.symm hik)]
        exact hpre i (by omega)
    · intro i hi
      rw [List.getElem?_set_ne (by omega)]
      exact hpost i (by omega)

/-- What `kk_blasvector_vector` returns when the length field is within the
capacity: the first `length` cells of the block, boxed, in order; the heap is
the one it was given. -/
theorem kk_blasvector_vector_spec {D : Type} (bv : kk_math_vector__blasvector) (heap : Heap D)
    (hcap : bv.length.toNat ≤ (heap.store bv.internal.owned).length) :
    kk_blasvector_vector bv heap
      = some (((heap.store bv.internal.owned).take bv.length.toNat).map kk_double_box, heap) := by
  obtain ⟨out, hrun, hlen, hpre, -⟩ :=
    box_loop_spec heap bv.internal.owned (kk_vector_alloc bv.length kk_box_null)
      bv.length.toNat (by simp [kk_vector_alloc]) hcap
  have hout : out = ((heap.store bv.internal.owned).take bv.length.toNat).map kk_double_box := by
    apply List.ext_getElem? ; intro i
    by_cases hi : i < bv.length.toNat
    · rw [hpre i hi, List.getElem?_map, List.getElem?_take_of_lt hi]
    · have h1 : out.length ≤ i := by simp [hlen, kk_vector_alloc]; omega
      rw [List.getElem?_eq_none h1, List.getElem?_eq_none]
      simp only [List.length_map, List.length_take]; omega
  simp only [kk_blasvector_vector, kk_intptr_unbox, hrun, Option.map_some', hout]

/-! ## The kernel models -/

theorem store_setBlock {D : Type} (heap : Heap D) (p : Nat) (blk : List D) (q : Nat) :
    (heap.setBlock p blk).store q = if q = p then blk else heap.store q := by
  simp [Heap.setBlock, Function.update_apply]

theorem length_updateBelow {D : Type} (k : Nat) (f : Nat → D → D) (xs : List D) :
    (updateBelow k f xs).length = xs.length := by
  simp [updateBelow]

theorem getElem_updateBelow_opt {D : Type} (k : Nat) (f : Nat → D → D) (xs : List D) (i : Nat) :
    (updateBelow k f xs)[i]? = if i < k then (xs[i]?).map (f i) else xs[i]? := by
  rw [updateBelow, List.getElem?_mapIdx]
  by_cases h : i < k
  · simp [h]
  · simp only [h, if_false]
    cases xs[i]? <;> rfl

/-- Frame of a kernel that updates the cells below `k` of the blocks `x` and
`y`: capacities are kept, the other blocks are untouched, and so is every cell
from `k` on. -/
theorem two_block_frame {D : Type} (heap : Heap D) (x y k : Nat) (f g : Nat → D → D) :
    let heap1 := (heap.setBlock x (updateBelow k f (heap.store x))).setBlock y
      (updateBelow k g (heap.store y))
    (∀ p, (heap1.store p).length = (heap.store p).length) ∧
    (∀ p, p ≠ x → p ≠ y → heap1.store p = heap.store p) ∧
    (∀ p i, k ≤ i → (heap1.store p)[i]? = (heap.store p)[i]?) := by
  refine ⟨?_, ?_, ?_⟩
  · intro p
    rw [store_setBlock]; split
    · subst p; exact length_updateBelow _ _ _
    · rw [store_setBlock]; split
      · subst p; exact length_updateBelow _ _ _
      · rfl
  · intro p hx hy
    rw [store_setBlock, if_neg hy, store_setBlock, if_neg hx]
  · intro p i hi
    rw [store_setBlock]; split
    · subst p; rw [getElem_updateBelow_opt, if_neg (by omega)]
    · rw [store_setBlock]; split
      · subst p; rw [getElem_updateBelow_opt, if_neg (by omega)]
      · rfl

theorem getD_of_getElem_some {D : Type} [Zero D] (xs : List D) (i : Nat) (x : D) (h : xs[i]? = some x) :
    xs.getD i 0 = x := by
  simp [List.getD_eq_getElem?_getD, h]

/-- The model `cblas_daxpy` within capacity: defined, writes only the block `y`, keeps
its capacity, puts `alpha * x[i] + y[i]` in the cells below `n` and leaves the
cells from `n` on as they were. -/
theorem cblas_daxpy_spec {D : Type} [Zero D] [Add D] [Mul D] (n : Int) (alpha : D) (x y : Nat) (heap : Heap D)
    (hx : n.toNat ≤ (heap.store x).length) (hy : n.toNat ≤ (heap.store y).length) :
    ∃ heap1 : Heap D,
      cblas_daxpy n alpha x y heap = some heap1 ∧
      (∀ p, (heap1.store p).length = (heap.store p).length) ∧
      (∀ p, p ≠ y → heap1.store p = heap.store p) ∧
      (∀ i, i < n.toNat → ∃ xi yi, (heap.store x)[i]? = some xi ∧ (heap.store y)[i]? = some yi ∧
        (heap1.store y)[i]? = some (alpha * xi + yi)) ∧
      (∀ p i, n.toNat ≤ i → (heap1.store p)[i]? = (heap.store p)[i]?) := by
  refine ⟨_, by simp only [cblas_daxpy]; rw [if_pos ⟨hx, hy⟩], ?_, ?_, ?_, ?_⟩
  · intro p
    rw [store_setBlock]; split
    · subst p; exact length_updateBelow _ _ _
    · rfl
  · intro p hp
    rw [store_setBlock, if_neg hp]
  · intro i hi
    have hix : i < (heap.store x).length := by omega
    have hiy : i < (heap.store y).length := by omega
    refine ⟨(heap.store x)[i], (heap.store y)[i], List.getElem?_eq_getElem hix,
      List.getElem?_eq_getElem hiy, ?_⟩
    rw [store_setBlock, if_pos rfl, getElem_updateBelow_opt, if_pos hi,
      List.getElem?_eq_getElem hiy, getD_of_getElem_some _ _ _ (List.getElem?_eq_getElem hix)]
    rfl
  · intro p i hi
    rw [store_setBlock]; split
    · subst p; rw [getElem_updateBelow_opt, if_neg (by omega)]
    · rfl

/-- The model `cblas_dscal` within capacity: defined, writes only the block `x`, keeps
its capacity, puts `alpha * x[i]` in the cells below `n` and leaves the cells
from `n` on as they were. -/
theorem cblas_dscal_spec {D : Type} [Mul D] (n : Int) (alpha : D) (x : Nat) (heap : Heap D)
    (hx : n.toNat ≤ (heap.store x).length) :
    ∃ heap1 : Heap D,
      cblas_dscal n alpha x heap = some heap1 ∧
      (∀ p, (heap1.store p).length = (heap.store p).length) ∧
      (∀ p, p ≠ x → heap1.store p = heap.store p) ∧
      (∀ i, i < n.toNat → ∃ xi, (heap.store x)[i]? = some xi ∧
        (heap1.store x)[i]? = some (alpha * xi)) ∧
      (∀ p i, n.toNat ≤ i → (heap1.store p)[i]? = (heap.store p)[i]?) := by
  refine ⟨_, by simp only [cblas_dscal]; rw [if_pos hx], ?_, ?_, ?_, ?_⟩
  · intro p
    rw [store_setBlock]; split
    · subst p; exact length_updateBelow _ _ _
    · rfl
  · intro p hp
    rw [store_setBlock, if_neg hp]
  · intro i hi
    have hix : i < (heap.store x).length := by omega
    refine ⟨(heap.store x)[i], List.getElem?_eq_getElem hix, ?_⟩
    rw [store_setBlock, if_pos rfl, getElem_updateBelow_opt, if_pos hi,
      List.getElem?_eq_getElem hix]
    rfl
  · intro p i hi
    rw [store_setBlock]; split
    · subst p; rw [getElem_updateBelow_opt, if_neg (by omega)]
    · rfl

/-- The model `cblas_drot` on two different blocks within capacity: defined, keeps every
capacity, writes only the blocks `x` and `y`, performs the Givens update on
the cells below `n` and leaves every cell from `n` on as it was. -/
theorem cblas_drot_spec {D : Type} [Zero D] [Add D] [Sub D] [Mul D] (n : Int) (x y : Nat) (c s : D) (heap : Heap D) (hxy : x ≠ y)
    (hx : n.toNat ≤ (heap.store x).length) (hy : n.toNat ≤ (heap.store y).length) :
    ∃ heap1 : Heap D,
      cblas_drot n x y c s heap = some heap1 ∧
      (∀ p, (heap1.store p).length = (heap.store p).length) ∧
      (∀ p, p ≠ x → p ≠ y → heap1.store p = heap.store p) ∧
      (∀ i, i < n.toNat → ∃ xi yi, (heap.store x)[i]? = some xi ∧ (heap.store y)[i]? = some yi ∧
        (heap1.store x)[i]? = some (c * xi + s * yi) ∧
        (heap1.store y)[i]? = some (c * yi - s * xi)) ∧
      (∀ p i, n.toNat ≤ i → (heap1.store p)[i]? = (heap.store p)[i]?) := by
  obtain ⟨hlen, hframe, hkeep⟩ := two_block_frame heap x y n.toNat
    (fun i xi => c * xi + s * (heap.store y).getD i 0)
    (fun i yi => c * yi - s * (heap.store x).getD i 0)
  refine ⟨_, ?_, hlen, hframe, ?_, hkeep⟩
  · simp only [cblas_drot]
    rw [if_neg (fun h => hxy h.1), if_pos ⟨hx, hy⟩]
  · intro i hi
    have hix : i < (heap.store x).length := by omega
    have hiy : i < (heap.store y).length := by omega
    refine ⟨(heap.store x)[i], (heap.store y)[i], List.getElem?_eq_getElem hix,
      List.getElem?_eq_getElem hiy, ?_, ?_⟩
    · rw [store_setBlock, if_neg hxy, store_setBlock, if_pos rfl, getElem_updateBelow_opt,
        if_pos hi, List.getElem?_eq_getElem hix,
        getD_of_getElem_some _ _ _ (List.getElem?_eq_getElem hiy)]
      rfl
    · rw [store_setBlock, if_pos rfl, getElem_updateBelow_opt,
        if_pos hi, List.getElem?_eq_getElem hiy,
        getD_of_getElem_some _ _ _ (List.getElem?_eq_getElem hix)]
      rfl

/-- The model `cblas_drotm` on two different blocks within capacity: defined, keeps every
capacity, writes only the blocks `x` and `y`, and leaves every cell from `n`
on as it was. -/
theorem cblas_drotm_spec {D : Type} [LinearOrderedRing D] (n : Int) (x y : Nat) (param : Fin 5 → D) (heap : Heap D)
    (hxy : x ≠ y)
    (hx : n.toNat ≤ (heap.store x).length) (hy : n.toNat ≤ (heap.store y).length) :
    ∃ heap1 : Heap D,
      cblas_drotm n x y param heap = some heap1 ∧
      (∀ p, (heap1.store p).length = (heap.store p).length) ∧
      (∀ p, p ≠ x → p ≠ y → heap1.store p = heap.store p) ∧
      (∀ p i, n.toNat ≤ i → (heap1.store p)[i]? = (heap.store p)[i]?) := by
  simp only [cblas_drotm]
  split
  · exact ⟨heap, rfl, fun _ => rfl, fun _ _ _ => rfl, fun _ _ _ => rfl⟩
  · rw [if_pos ⟨hx, hy⟩]
    split
    · exact ⟨_, rfl, two_block_frame heap x y n.toNat _ _⟩
    · split
      · exact ⟨_, rfl, two_block_frame heap x y n.toNat _ _⟩
      · exact ⟨_, rfl, two_block_frame heap x y n.toNat _ _⟩

theorem ddotLoop_eq_sum {D : Type} [LinearOrderedRing D] (xs ys : List D) (k : Nat) :
    ddotLoop xs ys k = ∑ i in Finset.range k, xs.getD i 0 * ys.getD i 0 := by
  induction k with
  | zero => simp [ddotLoop]
  | succ k ih => rw [ddotLoop, ih, Finset.sum_range_succ]

theorem reconcile_eq_min (la lb : Int) : (if la > lb then lb else la) = min la lb := by
  by_cases h : la > lb
  · rw [if_pos h, min_eq_right (le_of_lt h)]
  · rw [if_neg h, min_eq_left (not_lt.mp h)]

theorem toNat_min_le_left {D : Type} (heap : Heap D) (a : kk_math_vector__blasvector)
    (lb : Int) (ha : LengthWithinCapacity heap a) :
    (min a.length lb).toNat ≤ (heap.store a.internal.owned).length := by
  have h1 : min a.length lb ≤ a.length := min_le_left _ _
  have h2 : a.length ≤ ((heap.store a.internal.owned).length : Int) := ha
  omega

theorem toNat_min_le_right {D : Type} (heap : Heap D) (b : kk_math_vector__blasvector)
    (la : Int) (hb : LengthWithinCapacity heap b) :
    (min la b.length).toNat ≤ (heap.store b.internal.owned).length := by
  have h1 : min la b.length ≤ b.length := min_le_right _ _
  have h2 : b.length ≤ ((heap.store b.internal.owned).length : Int) := hb
  omega

/-- C1 (round trip of the buffer bridge).  For every sequence `s` of doubles and
every heap, `kk_vector_blasvector` on the boxed sequence returns a vector whose
length field is the length of `s`, and `kk_blasvector_vector` on that vector
returns a sequence of the same length that is the boxed `s`, element for
element and in the same order. -/
theorem bridge_round_trip {D : Type} (s : List D) (heap : Heap D) :
    ∃ (bv : kk_math_vector__blasvector) (heap1 : Heap D),
      kk_vector_blasvector (s.map kk_double_box) heap = some (bv, heap1) ∧
      bv.length = (s.length : Int) ∧
      ∃ out : kk_vector_t D,
        kk_blasvector_vector bv heap1 = some (out, heap1) ∧
        out.length = s.length ∧
        (∀ i : Nat, out[i]? = (s[i]?).map kk_double_box) ∧
        out = s.map kk_double_box := by
  obtain ⟨heap1, hrun, hblk, -⟩ := kk_vector_blasvector_spec s heap
  refine ⟨_, heap1, hrun, rfl, s.map kk_double_box, ?_, by simp, by simp, rfl⟩
  rw [kk_blasvector_vector_spec _ _ (by simp [hblk])]
  simp [hblk]

/-- C2 (AxpyAdd).  For vectors `a`, `b` whose length fields are within their
capacities and every scalar `α`, with `n = min a.length b.length`: `kk_axpy`
returns `b` with its length field set to `n`, and for every `i < n` the cell
`i` of the buffer of `b` holds `α * a[i] + b[i]` afterwards. -/
theorem kk_axpy_correct {D : Type} [Zero D] [Add D] [Mul D]
    (a b : kk_math_vector__blasvector) (α : D) (heap : Heap D)
    (ha : LengthWithinCapacity heap a) (hb : LengthWithinCapacity heap b) :
    ∃ heap1 : Heap D,
      kk_axpy cblas_daxpy a b α heap
        = some ({ b with length := min a.length b.length }, heap1) ∧
      ∀ i : Nat, (i : Int) < min a.length b.length →
        ∃ ai bi, (heap.store a.internal.owned)[i]? = some ai ∧
          (heap.store b.internal.owned)[i]? = some bi ∧
          (heap1.store b.internal.owned)[i]? = some (α * ai + bi) := by
  obtain ⟨heap1, hrun, -, -, hval, -⟩ :=
    cblas_daxpy_spec (min a.length b.length) α a.internal.owned b.internal.owned heap
      (toNat_min_le_left heap a _ ha) (toNat_min_le_right heap b _ hb)
  refine ⟨heap1, ?_, fun i hi => hval i (by omega)⟩
  simp only [kk_axpy, kk_cptr_raw_unbox_borrowed, reconcile_eq_min, hrun, Option.map_some']

/-- Witness of C2 on the two examples of the specification: `a = [1, 2, 3]`,
`b = [10, 20, 30]`, `α = 2` gives `[12, 24, 36]` with length `3`; `a = [1, 2]`
and the same `b` give length `2` and the buffer `[12, 24, 30]`. -/
theorem kk_axpy_correct_witness :
    (LengthWithinCapacity heapAxpy3 ⟨3, ⟨0⟩⟩ ∧ LengthWithinCapacity heapAxpy3 ⟨3, ⟨1⟩⟩ ∧
      (∃ heap1 : Heap Int,
        kk_axpy cblas_daxpy ⟨3, ⟨0⟩⟩ ⟨3, ⟨1⟩⟩ 2 heapAxpy3
          = some ({ (⟨3, ⟨1⟩⟩ : kk_math_vector__blasvector) with length := min 3 3 }, heap1) ∧
        ∀ i : Nat, (i : Int) < min 3 3 →
          ∃ ai bi, (heapAxpy3.store 0)[i]? = some ai ∧ (heapAxpy3.store 1)[i]? = some bi ∧
            (heap1.store 1)[i]? = some (2 * ai + bi)) ∧
      (kk_axpy cblas_daxpy ⟨3, ⟨0⟩⟩ ⟨3, ⟨1⟩⟩ 2 heapAxpy3).map (fun r => (r.1, r.2.store 1))
        = some (⟨3, ⟨1⟩⟩, [12, 24, 36])) ∧
    (LengthWithinCapacity heapAxpy2 ⟨2, ⟨0⟩⟩ ∧ LengthWithinCapacity heapAxpy2 ⟨3, ⟨1⟩⟩ ∧
      (∃ heap1 : Heap Int,
        kk_axpy cblas_daxpy ⟨2, ⟨0⟩⟩ ⟨3, ⟨1⟩⟩ 2 heapAxpy2
          = some ({ (⟨3, ⟨1⟩⟩ : kk_math_vector__blasvector) with length := min 2 3 }, heap1) ∧
        ∀ i : Nat, (i : Int) < min 2 3 →
          ∃ ai bi, (heapAxpy2.store 0)[i]? = some ai ∧ (heapAxpy2.store 1)[i]? = some bi ∧
            (heap1.store 1)[i]? = some (2 * ai + bi)) ∧
      (kk_axpy cblas_daxpy ⟨2, ⟨0⟩⟩ ⟨3, ⟨1⟩⟩ 2 heapAxpy2).map (fun r => (r.1, r.2.store 1))
        = some (⟨2, ⟨1⟩⟩, [12, 24, 30])) :=
  ⟨⟨by decide, by decide,
      kk_axpy_correct ⟨3, ⟨0⟩⟩ ⟨3, ⟨1⟩⟩ 2 heapAxpy3 (by decide) (by decide), by decide⟩,
   ⟨by decide, by decide,
      kk_axpy_correct ⟨2, ⟨0⟩⟩ ⟨3, ⟨1⟩⟩ 2 heapAxpy2 (by decide) (by decide), by decide⟩⟩

/-- The wrapper `kk_axpy` hands the reconciled length to whatever kernel it is given. -/
theorem kk_axpy_calls {D : Type} (daxpy : Int → D → Nat → Nat → Heap D → Option (Heap D))
    (a b : kk_math_vector__blasvector) (α : D) (heap : Heap D) :
    kk_axpy daxpy a b α heap
      = (daxpy (min a.length b.length) α a.internal.owned b.internal.owned heap).map
          fun heap1 => ({ b with length := min a.length b.length }, heap1) := by
  simp only [kk_axpy, kk_cptr_raw_unbox_borrowed, reconcile_eq_min]

/-- The wrapper `kk_rot` hands the reconciled length to whatever kernel it is given. -/
theorem kk_rot_calls {D : Type} (drot : Int → Nat → Nat → D → D → Heap D → Option (Heap D))
    (a b : kk_math_vector__blasvector) (c s : D) (heap : Heap D) :
    kk_rot drot a b c s heap
      = (drot (min a.length b.length) a.internal.owned b.internal.owned c s heap).map
          fun heap1 => ((a, b), heap1) := by
  simp only [kk_rot, kk_cptr_raw_unbox_borrowed, reconcile_eq_min]

/-- The wrapper `kk_rotm` hands the reconciled length and the array
`[flag, h[0], h[1], h[2], h[3]]` to whatever kernel it is given. -/
theorem kk_rotm_calls {D : Type}
    (drotm : Int → Nat → Nat → (Fin 5 → D) → Heap D → Option (Heap D))
    (a b : kk_math_vector__blasvector) (flag : D) (h_matrix : kk_math_matrix__blasmatrix)
    (heap : Heap D) (m0 m1 m2 m3 : D)
    (h0 : (heap.store h_matrix.internal.owned)[0]? = some m0)
    (h1 : (heap.store h_matrix.internal.owned)[1]? = some m1)
    (h2 : (heap.store h_matrix.internal.owned)[2]? = some m2)
    (h3 : (heap.store h_matrix.internal.owned)[3]? = some m3) :
    kk_rotm drotm a b flag h_matrix heap
      = (drotm (min a.length b.length) a.internal.owned b.internal.owned
            ![flag, m0, m1, m2, m3] heap).map
          fun heap1 => ((a, b), heap1) := by
  simp only [kk_rotm, kk_cptr_raw_unbox_borrowed, reconcile_eq_min, Heap.read, h0, h1, h2, h3,
    Option.some_bind]

/-- A block of at least four cells can be read at the offsets `0` to `3`. -/
theorem four_cells {D : Type} (blk : List D) (h : 4 ≤ blk.length) :
    ∃ m0 m1 m2 m3, blk[0]? = some m0 ∧ blk[1]? = some m1 ∧ blk[2]? = some m2 ∧
      blk[3]? = some m3 :=
  ⟨blk[0], blk[1], blk[2], blk[3], List.getElem?_eq_getElem _, List.getElem?_eq_getElem _,
    List.getElem?_eq_getElem _, List.getElem?_eq_getElem _⟩

/-- Whenever the model `cblas_daxpy` is defined, it keeps every capacity and
every cell from `n` on. -/
theorem cblas_daxpy_of_some {D : Type} [Zero D] [Add D] [Mul D] (n : Int) (alpha : D)
    (x y : Nat) (heap heap1 : Heap D) (h : cblas_daxpy n alpha x y heap = some heap1) :
    (∀ p, (heap1.store p).length = (heap.store p).length) ∧
    (∀ p i, n.toNat ≤ i → (heap1.store p)[i]? = (heap.store p)[i]?) := by
  by_cases hc : n.toNat ≤ (heap.store x).length ∧ n.toNat ≤ (heap.store y).length
  · obtain ⟨heap2, hrun, hlen, -, -, hkeep⟩ := cblas_daxpy_spec n alpha x y heap hc.1 hc.2
    rw [hrun] at h
    cases h
    exact ⟨hlen, hkeep⟩
  · simp only [cblas_daxpy] at h
    rw [if_neg hc] at h
    cases h

/-- Whenever the model `cblas_dscal` is defined, it keeps every capacity and
every cell from `n` on. -/
theorem cblas_dscal_of_some {D : Type} [Mul D] (n : Int) (alpha : D)
    (x : Nat) (heap heap1 : Heap D) (h : cblas_dscal n alpha x heap = some heap1) :
    (∀ p, (heap1.store p).length = (heap.store p).length) ∧
    (∀ p i, n.toNat ≤ i → (heap1.store p)[i]? = (heap.store p)[i]?) := by
  by_cases hc : n.toNat ≤ (heap.store x).length
  · obtain ⟨heap2, hrun, hlen, -, -, hkeep⟩ := cblas_dscal_spec n alpha x heap hc
    rw [hrun] at h
    cases h
    exact ⟨hlen, hkeep⟩
  · simp only [cblas_dscal] at h
    rw [if_neg hc] at h
    cases h

/-- Whenever the model `cblas_drot` is defined, it keeps every capacity and
every cell from `n` on. -/
theorem cblas_drot_of_some {D : Type} [Zero D] [Add D] [Sub D] [Mul D] (n : Int)
    (x y : Nat) (c s : D) (heap heap1 : Heap D) (h : cblas_drot n x y c s heap = some heap1) :
    (∀ p, (heap1.store p).length = (heap.store p).length) ∧
    (∀ p i, n.toNat ≤ i → (heap1.store p)[i]? = (heap.store p)[i]?) := by
  simp only [cblas_drot] at h
  split at h
  · cases h
  · split at h
    · cases h
      obtain ⟨hlen, -, hkeep⟩ := two_block_frame heap x y n.toNat
        (fun i xi => c * xi + s * (heap.store y).getD i 0)
        (fun i yi => c * yi - s * (heap.store x).getD i 0)
      exact ⟨hlen, hkeep⟩
    · cases h

/-- Whenever the model `cblas_drotm` is defined, it keeps every capacity and
every cell from `n` on. -/
theorem cblas_drotm_of_some {D : Type} [LinearOrderedRing D] (n : Int) (x y : Nat)
    (param : Fin 5 → D) (heap heap1 : Heap D)
    (h : cblas_drotm n x y param heap = some heap1) :
    (∀ p, (heap1.store p).length = (heap.store p).length) ∧
    (∀ p i, n.toNat ≤ i → (heap1.store p)[i]? = (heap.store p)[i]?) := by
  simp only [cblas_drotm] at h
  split at h
  · cases h
    exact ⟨fun _ => rfl, fun _ _ _ => rfl⟩
  · split at h
    · cases h
    · split at h
      · split at h
        · cases h
          obtain ⟨hlen, -, hkeep⟩ := two_block_frame heap x y n.toNat
            (fun i w => w * param 1 + (heap.store y).getD i 0 * param 3)
            (fun i z => (heap.store x).getD i 0 * param 2 + z * param 4)
          exact ⟨hlen, hkeep⟩
        · split at h
          · cases h
            obtain ⟨hlen, -, hkeep⟩ := two_block_frame heap x y n.toNat
              (fun i w => w + (heap.store y).getD i 0 * param 3)
              (fun i z => (heap.store x).getD i 0 * param 2 + z)
            exact ⟨hlen, hkeep⟩
          · cases h
            obtain ⟨hlen, -, hkeep⟩ := two_block_frame heap x y n.toNat
              (fun i w => w * param 1 + (heap.store y).getD i 0)
              (fun i z => -(heap.store x).getD i 0 + param 4 * z)
            exact ⟨hlen, hkeep⟩
      · cases h

/-- Whatever `kk_axpy` returns with the reference kernel: the vector is `b` with
the reconciled length, and the heap is one the kernel left when called with the
reconciled length. -/
theorem kk_axpy_of_some {D : Type} [Zero D] [Add D] [Mul D]
    (a b r : kk_math_vector__blasvector) (α : D) (heap heap1 : Heap D)
    (h : kk_axpy cblas_daxpy a b α heap = some (r, heap1)) :
    r = { b with length := min a.length b.length } ∧
    cblas_daxpy (min a.length b.length) α a.internal.owned b.internal.owned heap
      = some heap1 := by
  rw [kk_axpy_calls] at h
  cases hk : cblas_daxpy (min a.length b.length) α a.internal.owned b.internal.owned heap with
  | none => rw [hk] at h; cases h
  | some heap2 => rw [hk] at h; cases h; exact ⟨rfl, rfl⟩

/-- Whatever `kk_rot` returns with the reference kernel: the pair is `(a, b)`,
and the heap is one the kernel left when called with the reconciled length. -/
theorem kk_rot_of_some {D : Type} [Zero D] [Add D] [Sub D] [Mul D]
    (a b ra rb : kk_math_vector__blasvector) (c s : D) (heap heap1 : Heap D)
    (h : kk_rot cblas_drot a b c s heap = some ((ra, rb), heap1)) :
    ra = a ∧ rb = b ∧
    cblas_drot (min a.length b.length) a.internal.owned b.internal.owned c s heap
      = some heap1 := by
  rw [kk_rot_calls] at h
  cases hk : cblas_drot (min a.length b.length) a.internal.owned b.internal.owned c s heap with
  | none => rw [hk] at h; cases h
  | some heap2 => rw [hk] at h; cases h; exact ⟨rfl, rfl, rfl⟩

/-- Whatever `kk_rotm` returns with the reference kernel: the pair is `(a, b)`,
and the heap is one the kernel left when called with the reconciled length and
some parameter array. -/
theorem kk_rotm_of_some {D : Type} [LinearOrderedRing D]
    (a b ra rb : kk_math_vector__blasvector) (flag : D)
    (h_matrix : kk_math_matrix__blasmatrix) (heap heap1 : Heap D)
    (h : kk_rotm cblas_drotm a b flag h_matrix heap = some ((ra, rb), heap1)) :
    ra = a ∧ rb = b ∧
    ∃ param : Fin 5 → D,
      cblas_drotm (min a.length b.length) a.internal.owned b.internal.owned param heap
        = some heap1 := by
  simp only [kk_rotm, kk_cptr_raw_unbox_borrowed, reconcile_eq_min, Heap.read] at h
  cases h0 : (heap.store h_matrix.internal.owned)[0]? with
  | none => rw [h0] at h; cases h
  | some m0 =>
    cases h1 : (heap.store h_matrix.internal.owned)[1]? with
    | none => rw [h0, h1] at h; cases h
    | some m1 =>
      cases h2 : (heap.store h_matrix.internal.owned)[2]? with
      | none => rw [h0, h1, h2] at h; cases h
      | some m2 =>
        cases h3 : (heap.store h_matrix.internal.owned)[3]? with
        | none => rw [h0, h1, h2, h3] at h; cases h
        | some m3 =>
          rw [h0, h1, h2, h3] at h
          simp only [Option.some_bind] at h
          cases hk : cblas_drotm (min a.length b.length) a.internal.owned b.internal.owned
              ![flag, m0, m1, m2, m3] heap with
          | none => rw [hk] at h; cases h
          | some heap2 => rw [hk] at h; cases h; exact ⟨rfl, rfl, _, hk⟩

/-- Whatever `kk_scal` returns with the reference kernel: the vector is the one
given, and the heap is one the kernel left when called with its length. -/
theorem kk_scal_of_some {D : Type} [Mul D]
    (v r : kk_math_vector__blasvector) (α : D) (heap heap1 : Heap D)
    (h : kk_scal cblas_dscal v α heap = some (r, heap1)) :
    r = v ∧ cblas_dscal v.length α v.internal.owned heap = some heap1 := by
  simp only [kk_scal, kk_cptr_raw_unbox_borrowed] at h
  cases hk : cblas_dscal v.length α v.internal.owned heap with
  | none => rw [hk] at h; cases h
  | some heap2 => rw [hk] at h; cases h; exact ⟨rfl, rfl⟩

/-- C3 (length reconciliation frame).  For all vectors `a`, `b`, on any heap:
`kk_axpy`, `kk_rot` and `kk_rotm` each pass `min a.length b.length` to the
kernel they are given (for `kk_rotm`, once the four matrix cells can be read);
with the reference kernels, whenever one of these calls returns, every cell of
the buffers of `a` and `b` at an index `≥ min a.length b.length` is as it was
before the call; and the calls do return: `kk_axpy` when both length fields
are within capacity, `kk_rot` when moreover the buffers are different,
`kk_rotm` when moreover the matrix buffer has four cells. -/
theorem length_reconciliation_frame {D : Type} [LinearOrderedRing D]
    (a b : kk_math_vector__blasvector) (α c s flag : D)
    (h_matrix : kk_math_matrix__blasmatrix) (heap : Heap D) :
    (∀ daxpy : Int → D → Nat → Nat → Heap D → Option (Heap D),
      kk_axpy daxpy a b α heap
        = (daxpy (min a.length b.length) α a.internal.owned b.internal.owned heap).map
            fun heap1 => ({ b with length := min a.length b.length }, heap1)) ∧
    (∀ drot : Int → Nat → Nat → D → D → Heap D → Option (Heap D),
      kk_rot drot a b c s heap
        = (drot (min a.length b.length) a.internal.owned b.internal.owned c s heap).map
            fun heap1 => ((a, b), heap1)) ∧
    (4 ≤ (heap.store h_matrix.internal.owned).length →
      ∃ param : Fin 5 → D,
        ∀ drotm : Int → Nat → Nat → (Fin 5 → D) → Heap D → Option (Heap D),
          kk_rotm drotm a b flag h_matrix heap
            = (drotm (min a.length b.length) a.internal.owned b.internal.owned param heap).map
                fun heap1 => ((a, b), heap1)) ∧
    (∀ r heap1, kk_axpy cblas_daxpy a b α heap = some (r, heap1) →
      ∀ i : Nat, min a.length b.length ≤ (i : Int) →
        (heap1.store a.internal.owned)[i]? = (heap.store a.internal.owned)[i]? ∧
        (heap1.store b.internal.owned)[i]? = (heap.store b.internal.owned)[i]?) ∧
    (∀ r heap1, kk_rot cblas_drot a b c s heap = some (r, heap1) →
      ∀ i : Nat, min a.length b.length ≤ (i : Int) →
        (heap1.store a.internal.owned)[i]? = (heap.store a.internal.owned)[i]? ∧
        (heap1.store b.internal.owned)[i]? = (heap.store b.internal.owned)[i]?) ∧
    (∀ r heap1, kk_rotm cblas_drotm a b flag h_matrix heap = some (r, heap1) →
      ∀ i : Nat, min a.length b.length ≤ (i : Int) →
        (heap1.store a.internal.owned)[i]? = (heap.store a.internal.owned)[i]? ∧
        (heap1.store b.internal.owned)[i]? = (heap.store b.internal.owned)[i]?) ∧
    (LengthWithinCapacity heap a → LengthWithinCapacity heap b →
      ∃ r heap1, kk_axpy cblas_daxpy a b α heap = some (r, heap1)) ∧
    (LengthWithinCapacity heap a → LengthWithinCapacity heap b →
      a.internal.owned ≠ b.internal.owned →
      ∃ r heap1, kk_rot cblas_drot a b c s heap = some (r, heap1)) ∧
    (LengthWithinCapacity heap a → LengthWithinCapacity heap b →
      a.internal.owned ≠ b.internal.owned →
      4 ≤ (heap.store h_matrix.internal.owned).length →
      ∃ r heap1, kk_rotm cblas_drotm a b flag h_matrix heap = some (r, heap1)) := by
  refine ⟨fun K => kk_axpy_calls K a b α heap, fun K => kk_rot_calls K a b c s heap,
    ?_, ?_, ?_, ?_, ?_, ?_, ?_⟩
  · intro hm
    obtain ⟨m0, m1, m2, m3, h0, h1, h2, h3⟩ := four_cells _ hm
    exact ⟨![flag, m0, m1, m2, m3], fun K =>
      kk_rotm_calls K a b flag h_matrix heap m0 m1 m2 m3 h0 h1 h2 h3⟩
  · intro r heap1 h i hi
    obtain ⟨-, hk⟩ := kk_axpy_of_some a b r α heap heap1 h
    obtain ⟨-, hkeep⟩ := cblas_daxpy_of_some _ _ _ _ _ _ hk
    exact ⟨hkeep _ i (by omega), hkeep _ i (by omega)⟩
  · rintro ⟨ra, rb⟩ heap1 h i hi
    obtain ⟨-, -, hk⟩ := kk_rot_of_some a b ra rb c s heap heap1 h
    obtain ⟨-, hkeep⟩ := cblas_drot_of_some _ _ _ _ _ _ _ hk
    exact ⟨hkeep _ i (by omega), hkeep _ i (by omega)⟩
  · rintro ⟨ra, rb⟩ heap1 h i hi
    obtain ⟨-, -, param, hk⟩ := kk_rotm_of_some a b ra rb flag h_matrix heap heap1 h
    obtain ⟨-, hkeep⟩ := cblas_drotm_of_some _ _ _ _ _ _ hk
    exact ⟨hkeep _ i (by omega), hkeep _ i (by omega)⟩
  · intro ha hb
    obtain ⟨heap1, hrun, -⟩ :=
      cblas_daxpy_spec (min a.length b.length) α a.internal.owned b.internal.owned heap
        (toNat_min_le_left heap a b.length ha) (toNat_min_le_right heap b a.length hb)
    exact ⟨_, heap1, by rw [kk_axpy_calls, hrun]; rfl⟩
  · intro ha hb hab
    obtain ⟨heap1, hrun, -⟩ :=
      cblas_drot_spec (min a.length b.length) a.internal.owned b.internal.owned c s heap hab
        (toNat_min_le_left heap a b.length ha) (toNat_min_le_right heap b a.length hb)
    exact ⟨_, heap1, by rw [kk_rot_calls, hrun]; rfl⟩
  · intro ha hb hab hm
    obtain ⟨m0, m1, m2, m3, h0, h1, h2, h3⟩ := four_cells _ hm
    obtain ⟨heap1, hrun, -⟩ :=
      cblas_drotm_spec (min a.length b.length) a.internal.owned b.internal.owned
        ![flag, m0, m1, m2, m3] heap hab
        (toNat_min_le_left heap a b.length ha) (toNat_min_le_right heap b a.length hb)
    have hcall := kk_rotm_calls cblas_drotm a b flag h_matrix heap m0 m1 m2 m3 h0 h1 h2 h3
    exact ⟨_, heap1, by rw [hcall, hrun]; rfl⟩

/-- Witness of C3.  On the heap of the second AxpyAdd example (`a = [1, 2]`,
`b = [10, 20, 30]`, no matrix anywhere) `kk_axpy` returns and the cell `2` of
the buffer of `b` still holds `30`; on the heap with `a = [1, 2, 3]`,
`b = [10, 20]` and a matrix, `kk_rot` and `kk_rotm` return and the cell `2` of
the buffer of `a` still holds `3`. -/
theorem length_reconciliation_frame_witness :
    ((LengthWithinCapacity heapAxpy2 ⟨2, ⟨0⟩⟩ ∧ LengthWithinCapacity heapAxpy2 ⟨3, ⟨1⟩⟩) ∧
      (∃ r heap1, kk_axpy cblas_daxpy ⟨2, ⟨0⟩⟩ ⟨3, ⟨1⟩⟩ 2 heapAxpy2 = some (r, heap1)) ∧
      (∀ r heap1, kk_axpy cblas_daxpy ⟨2, ⟨0⟩⟩ ⟨3, ⟨1⟩⟩ 2 heapAxpy2 = some (r, heap1) →
        ∀ i : Nat, min 2 3 ≤ (i : Int) →
          (heap1.store 0)[i]? = (heapAxpy2.store 0)[i]? ∧
          (heap1.store 1)[i]? = (heapAxpy2.store 1)[i]?) ∧
      (kk_axpy cblas_daxpy ⟨2, ⟨0⟩⟩ ⟨3, ⟨1⟩⟩ 2 heapAxpy2).map
          (fun r => (r.2.store 0, r.2.store 1))
        = some ([1, 2], [12, 24, 30])) ∧
    ((LengthWithinCapacity heapRot ⟨3, ⟨0⟩⟩ ∧ LengthWithinCapacity heapRot ⟨2, ⟨1⟩⟩ ∧
        (0 : Nat) ≠ 1 ∧ 4 ≤ (heapRot.store 2).length) ∧
      (∃ r heap1, kk_rot cblas_drot ⟨3, ⟨0⟩⟩ ⟨2, ⟨1⟩⟩ 0 1 heapRot = some (r, heap1)) ∧
      (∀ r heap1, kk_rot cblas_drot ⟨3, ⟨0⟩⟩ ⟨2, ⟨1⟩⟩ 0 1 heapRot = some (r, heap1) →
        ∀ i : Nat, min 3 2 ≤ (i : Int) →
          (heap1.store 0)[i]? = (heapRot.store 0)[i]? ∧
          (heap1.store 1)[i]? = (heapRot.store 1)[i]?) ∧
      (∃ r heap1, kk_rotm cblas_drotm ⟨3, ⟨0⟩⟩ ⟨2, ⟨1⟩⟩ (-1) ⟨2, 2, ⟨2⟩⟩ heapRot
        = some (r, heap1)) ∧
      (∀ r heap1, kk_rotm cblas_drotm ⟨3, ⟨0⟩⟩ ⟨2, ⟨1⟩⟩ (-1) ⟨2, 2, ⟨2⟩⟩ heapRot
          = some (r, heap1) →
        ∀ i : Nat, min 3 2 ≤ (i : Int) →
          (heap1.store 0)[i]? = (heapRot.store 0)[i]? ∧
          (heap1.store 1)[i]? = (heapRot.store 1)[i]?) ∧
      (∃ param : Fin 5 → Int,
        ∀ drotm : Int → Nat → Nat → (Fin 5 → Int) → Heap Int → Option (Heap Int),
          kk_rotm drotm ⟨3, ⟨0⟩⟩ ⟨2, ⟨1⟩⟩ (-1) ⟨2, 2, ⟨2⟩⟩ heapRot
            = (drotm (min 3 2) 0 1 param heapRot).map
                fun heap1 => ((⟨3, ⟨0⟩⟩, ⟨2, ⟨1⟩⟩), heap1)) ∧
      (kk_rot cblas_drot ⟨3, ⟨0⟩⟩ ⟨2, ⟨1⟩⟩ 0 1 heapRot).map
          (fun r => (r.2.store 0, r.2.store 1))
        = some ([10, 20, 3], [-1, -2]) ∧
      (kk_rotm cblas_drotm ⟨3, ⟨0⟩⟩ ⟨2, ⟨1⟩⟩ (-1) ⟨2, 2, ⟨2⟩⟩ heapRot).map
          (fun r => (r.2.store 0, r.2.store 1))
        = some ([2, 4, 3], [20, 40])) :=
  ⟨⟨⟨by decide, by decide⟩,
      (length_reconciliation_frame ⟨2, ⟨0⟩⟩ ⟨3, ⟨1⟩⟩ 2 0 1 (-1) ⟨2, 2, ⟨2⟩⟩
        heapAxpy2).2.2.2.2.2.2.1 (by decide) (by decide),
      (length_reconciliation_frame ⟨2, ⟨0⟩⟩ ⟨3, ⟨1⟩⟩ 2 0 1 (-1) ⟨2, 2, ⟨2⟩⟩
        heapAxpy2).2.2.2.1,
      by decide⟩,
    ⟨⟨by decide, by decide, by decide, by decide⟩,
      (length_reconciliation_frame ⟨3, ⟨0⟩⟩ ⟨2, ⟨1⟩⟩ 2 0 1 (-1) ⟨2, 2, ⟨2⟩⟩
        heapRot).2.2.2.2.2.2.2.1 (by decide) (by decide) (by decide),
      (length_reconciliation_frame ⟨3, ⟨0⟩⟩ ⟨2, ⟨1⟩⟩ 2 0 1 (-1) ⟨2, 2, ⟨2⟩⟩
        heapRot).2.2.2.2.1,
      (length_reconciliation_frame ⟨3, ⟨0⟩⟩ ⟨2, ⟨1⟩⟩ 2 0 1 (-1) ⟨2, 2, ⟨2⟩⟩
        heapRot).2.2.2.2.2.2.2.2 (by decide) (by decide) (by decide) (by decide),
      (length_reconciliation_frame ⟨3, ⟨0⟩⟩ ⟨2, ⟨1⟩⟩ 2 0 1 (-1) ⟨2, 2, ⟨2⟩⟩
        heapRot).2.2.2.2.2.1,
      (length_reconciliation_frame ⟨3, ⟨0⟩⟩ ⟨2, ⟨1⟩⟩ 2 0 1 (-1) ⟨2, 2, ⟨2⟩⟩
        heapRot).2.2.1 (by decide),
      by decide, by decide⟩⟩

/-- The wrapper `kk_dot` hands the reconciled length to whatever kernel it is given and
returns the heap it received. -/
theorem kk_dot_calls {D : Type} (ddot : Int → Nat → Nat → Heap D → Option D)
    (a b : kk_math_vector__blasvector) (heap : Heap D) :
    kk_dot ddot a b heap
      = (ddot (min a.length b.length) a.internal.owned b.internal.owned heap).map
          fun result => (result, heap) := by
  simp only [kk_dot, kk_cptr_raw_unbox_borrowed, reconcile_eq_min]

theorem kk_dot_value {D : Type} [LinearOrderedRing D]
    (a b : kk_math_vector__blasvector) (heap : Heap D)
    (ha : LengthWithinCapacity heap a) (hb : LengthWithinCapacity heap b) :
    kk_dot cblas_ddot a b heap
      = some (∑ i in Finset.range (min a.length b.length).toNat,
          (heap.store a.internal.owned).getD i 0 * (heap.store b.internal.owned).getD i 0,
          heap) := by
  rw [kk_dot_calls]
  simp only [cblas_ddot]
  rw [if_pos ⟨toNat_min_le_left heap a _ ha, toNat_min_le_right heap b _ hb⟩, ddotLoop_eq_sum]
  rfl

/-- C4 (DotProduct).  For vectors `a`, `b` with length fields within capacity
and `n = min a.length b.length`: `kk_dot` returns `Σ_{i<n} a[i] * b[i]`
together with the heap it was given (no buffer is modified), and the result is
the same on every heap that agrees with this one on the cells below `n` of
both buffers, so it does not depend on any cell at an index `≥ n`. -/
theorem kk_dot_correct {D : Type} [LinearOrderedRing D]
    (a b : kk_math_vector__blasvector) (heap : Heap D)
    (ha : LengthWithinCapacity heap a) (hb : LengthWithinCapacity heap b) :
    kk_dot cblas_ddot a b heap
      = some (∑ i in Finset.range (min a.length b.length).toNat,
          (heap.store a.internal.owned).getD i 0 * (heap.store b.internal.owned).getD i 0,
          heap) ∧
    ∀ heap2 : Heap D, LengthWithinCapacity heap2 a → LengthWithinCapacity heap2 b →
      (∀ i : Nat, (i : Int) < min a.length b.length →
        (heap2.store a.internal.owned)[i]? = (heap.store a.internal.owned)[i]? ∧
        (heap2.store b.internal.owned)[i]? = (heap.store b.internal.owned)[i]?) →
      (kk_dot cblas_ddot a b heap2).map Prod.fst = (kk_dot cblas_ddot a b heap).map Prod.fst := by
  refine ⟨kk_dot_value a b heap ha hb, fun heap2 ha2 hb2 hagree => ?_⟩
  rw [kk_dot_value a b heap ha hb, kk_dot_value a b heap2 ha2 hb2]
  simp only [Option.map_some', Option.some.injEq]
  apply Finset.sum_congr rfl
  intro i hi
  have hi' : (i : Int) < min a.length b.length := by
    have := Finset.mem_range.mp hi
    omega
  obtain ⟨h1, h2⟩ := hagree i hi'
  simp only [List.getD_eq_getElem?_getD, h1, h2]

/-- Witness of C4 on the example of the specification: `a = [1, 2, 3]`,
`b = [4, 5, 6]` gives `32`. -/
theorem kk_dot_correct_witness :
    (LengthWithinCapacity heapDot ⟨3, ⟨0⟩⟩ ∧ LengthWithinCapacity heapDot ⟨3, ⟨1⟩⟩) ∧
    (kk_dot cblas_ddot ⟨3, ⟨0⟩⟩ ⟨3, ⟨1⟩⟩ heapDot
      = some (∑ i in Finset.range (min (3 : Int) 3).toNat,
          (heapDot.store 0).getD i 0 * (heapDot.store 1).getD i 0, heapDot) ∧
    ∀ heap2 : Heap Int, LengthWithinCapacity heap2 ⟨3, ⟨0⟩⟩ →
      LengthWithinCapacity heap2 ⟨3, ⟨1⟩⟩ →
      (∀ i : Nat, (i : Int) < min 3 3 →
        (heap2.store 0)[i]? = (heapDot.store 0)[i]? ∧
        (heap2.store 1)[i]? = (heapDot.store 1)[i]?) →
      (kk_dot cblas_ddot ⟨3, ⟨0⟩⟩ ⟨3, ⟨1⟩⟩ heap2).map Prod.fst
        = (kk_dot cblas_ddot ⟨3, ⟨0⟩⟩ ⟨3, ⟨1⟩⟩ heapDot).map Prod.fst) ∧
    (kk_dot cblas_ddot ⟨3, ⟨0⟩⟩ ⟨3, ⟨1⟩⟩ heapDot).map Prod.fst = some 32 :=
  ⟨⟨by decide, by decide⟩,
    kk_dot_correct ⟨3, ⟨0⟩⟩ ⟨3, ⟨1⟩⟩ heapDot (by decide) (by decide), by decide⟩

/-- C7 (Scale).  For a vector `v` with length field within capacity and every
scalar `α`: `kk_scal` returns `v` itself (same buffer, same length field), the
capacity of the buffer is unchanged, and for every `i < v.length` the cell `i`
of the buffer holds `α * v[i]` afterwards. -/
theorem kk_scal_correct {D : Type} [Mul D]
    (v : kk_math_vector__blasvector) (α : D) (heap : Heap D)
    (hv : LengthWithinCapacity heap v) :
    ∃ heap1 : Heap D,
      kk_scal cblas_dscal v α heap = some (v, heap1) ∧
      capacity heap1 v = capacity heap v ∧
      ∀ i : Nat, (i : Int) < v.length →
        ∃ vi, (heap.store v.internal.owned)[i]? = some vi ∧
          (heap1.store v.internal.owned)[i]? = some (α * vi) := by
  have hcap : v.length.toNat ≤ (heap.store v.internal.owned).length := by
    have h2 : v.length ≤ ((heap.store v.internal.owned).length : Int) := hv
    omega
  obtain ⟨heap1, hrun, hlen, -, hval, -⟩ :=
    cblas_dscal_spec v.length α v.internal.owned heap hcap
  refine ⟨heap1, ?_, hlen _, fun i hi => hval i (by omega)⟩
  simp only [kk_scal, kk_cptr_raw_unbox_borrowed, hrun, Option.map_some']

/-- Witness of C7 on the example of the specification: `v = [1, 2, 3]`,
`α = -1` gives `[-1, -2, -3]` with length `3`, in the same buffer. -/
theorem kk_scal_correct_witness :
    LengthWithinCapacity heapDot ⟨3, ⟨0⟩⟩ ∧
    (∃ heap1 : Heap Int,
      kk_scal cblas_dscal ⟨3, ⟨0⟩⟩ (-1) heapDot = some (⟨3, ⟨0⟩⟩, heap1) ∧
      capacity heap1 ⟨3, ⟨0⟩⟩ = capacity heapDot ⟨3, ⟨0⟩⟩ ∧
      ∀ i : Nat, (i : Int) < 3 →
        ∃ vi, (heapDot.store 0)[i]? = some vi ∧ (heap1.store 0)[i]? = some (-1 * vi)) ∧
    (kk_scal cblas_dscal ⟨3, ⟨0⟩⟩ (-1) heapDot).map (fun r => (r.1, r.2.store 0))
      = some (⟨3, ⟨0⟩⟩, [-1, -2, -3]) :=
  ⟨by decide, kk_scal_correct ⟨3, ⟨0⟩⟩ (-1) heapDot (by decide), by decide⟩

/-- C8 (PlaneRotate).  For vectors `a`, `b` on different buffers with length
fields within capacity, scalars `c`, `s` and `n = min a.length b.length`:
`kk_rot` returns the pair `(a, b)` in that order, both with the length field
they came with, and for every `i < n` the buffers hold the Givens update
`a'[i] = c * a[i] + s * b[i]` and `b'[i] = c * b[i] - s * a[i]`. -/
theorem kk_rot_correct {D : Type} [Zero D] [Add D] [Sub D] [Mul D]
    (a b : kk_math_vector__blasvector) (c s : D) (heap : Heap D)
    (ha : LengthWithinCapacity heap a) (hb : LengthWithinCapacity heap b)
    (hab : a.internal.owned ≠ b.internal.owned) :
    ∃ heap1 : Heap D,
      kk_rot cblas_drot a b c s heap = some ((a, b), heap1) ∧
      ∀ i : Nat, (i : Int) < min a.length b.length →
        ∃ ai bi, (heap.store a.internal.owned)[i]? = some ai ∧
          (heap.store b.internal.owned)[i]? = some bi ∧
          (heap1.store a.internal.owned)[i]? = some (c * ai + s * bi) ∧
          (heap1.store b.internal.owned)[i]? = some (c * bi - s * ai) := by
  obtain ⟨heap1, hrun, -, -, hval, -⟩ :=
    cblas_drot_spec (min a.length b.length) a.internal.owned b.internal.owned c s heap hab
      (toNat_min_le_left heap a _ ha) (toNat_min_le_right heap b _ hb)
  refine ⟨heap1, ?_, fun i hi => hval i (by omega)⟩
  rw [kk_rot_calls, hrun]
  rfl

/-- Witness of C8: `a = [1, 2, 3]` with length 3, `b = [10, 20]` with length 2,
`c = 2`, `s = 3`: the pair comes back with lengths 3 and 2 and the buffers
`[32, 64, 3]` and `[17, 34]`. -/
theorem kk_rot_correct_witness :
    (LengthWithinCapacity heapRot ⟨3, ⟨0⟩⟩ ∧ LengthWithinCapacity heapRot ⟨2, ⟨1⟩⟩ ∧
      (0 : Nat) ≠ 1) ∧
    (∃ heap1 : Heap Int,
      kk_rot cblas_drot ⟨3, ⟨0⟩⟩ ⟨2, ⟨1⟩⟩ 2 3 heapRot = some ((⟨3, ⟨0⟩⟩, ⟨2, ⟨1⟩⟩), heap1) ∧
      ∀ i : Nat, (i : Int) < min 3 2 →
        ∃ ai bi, (heapRot.store 0)[i]? = some ai ∧ (heapRot.store 1)[i]? = some bi ∧
          (heap1.store 0)[i]? = some (2 * ai + 3 * bi) ∧
          (heap1.store 1)[i]? = some (2 * bi - 3 * ai)) ∧
    (kk_rot cblas_drot ⟨3, ⟨0⟩⟩ ⟨2, ⟨1⟩⟩ 2 3 heapRot).map
        (fun r => (r.1, r.2.store 0, r.2.store 1))
      = some ((⟨3, ⟨0⟩⟩, ⟨2, ⟨1⟩⟩), [32, 64, 3], [17, 34]) :=
  ⟨⟨by decide, by decide, by decide⟩,
    kk_rot_correct ⟨3, ⟨0⟩⟩ ⟨2, ⟨1⟩⟩ 2 3 heapRot (by decide) (by decide) (by decide),
    by decide⟩

theorem lengthWithinCapacity_of_length_eq {D : Type} (heap heap1 : Heap D)
    (v : kk_math_vector__blasvector)
    (hlen : (heap1.store v.internal.owned).length = (heap.store v.internal.owned).length)
    (hv : LengthWithinCapacity heap v) : LengthWithinCapacity heap1 v := by
  unfold LengthWithinCapacity capacity at *
  rw [hlen]; exact hv

/-- C9 (invariant `length ≤ capacity`).  On any heap, `kk_vector_blasvector`
returns a vector whose capacity equals its length field, so the invariant
holds for it.  For all vectors `a`, `b`, on any heap: whenever `kk_axpy`,
`kk_rot`, `kk_rotm` or `kk_scal` returns (with the reference kernels), each
returned vector has the buffer and the capacity of the corresponding input and
a length field `≤` that input's, so it satisfies the invariant when that input
did.  And the calls do return: `kk_scal` and `kk_axpy` when the length fields
are within capacity, `kk_rot` when moreover the buffers are different,
`kk_rotm` when moreover the matrix buffer has four cells. -/
theorem length_within_capacity_invariant {D : Type} [LinearOrderedRing D]
    (seq : List D) (a b : kk_math_vector__blasvector) (α c s flag : D)
    (h_matrix : kk_math_matrix__blasmatrix) (heap : Heap D) :
    (∃ bv heap1, kk_vector_blasvector (seq.map kk_double_box) heap = some (bv, heap1) ∧
      (capacity heap1 bv : Int) = bv.length ∧ LengthWithinCapacity heap1 bv) ∧
    (∀ r heap1, kk_axpy cblas_daxpy a b α heap = some (r, heap1) →
      r.internal = b.internal ∧ capacity heap1 r = capacity heap b ∧ r.length ≤ b.length ∧
      (LengthWithinCapacity heap b → LengthWithinCapacity heap1 r)) ∧
    (∀ ra rb heap1, kk_rot cblas_drot a b c s heap = some ((ra, rb), heap1) →
      (ra.internal = a.internal ∧ capacity heap1 ra = capacity heap a ∧
        ra.length ≤ a.length ∧ (LengthWithinCapacity heap a → LengthWithinCapacity heap1 ra)) ∧
      (rb.internal = b.internal ∧ capacity heap1 rb = capacity heap b ∧
        rb.length ≤ b.length ∧ (LengthWithinCapacity heap b → LengthWithinCapacity heap1 rb))) ∧
    (∀ ra rb heap1, kk_rotm cblas_drotm a b flag h_matrix heap = some ((ra, rb), heap1) →
      (ra.internal = a.internal ∧ capacity heap1 ra = capacity heap a ∧
        ra.length ≤ a.length ∧ (LengthWithinCapacity heap a → LengthWithinCapacity heap1 ra)) ∧
      (rb.internal = b.internal ∧ capacity heap1 rb = capacity heap b ∧
        rb.length ≤ b.length ∧ (LengthWithinCapacity heap b → LengthWithinCapacity heap1 rb))) ∧
    (∀ r heap1, kk_scal cblas_dscal a α heap = some (r, heap1) →
      r.internal = a.internal ∧ capacity heap1 r = capacity heap a ∧ r.length ≤ a.length ∧
      (LengthWithinCapacity heap a → LengthWithinCapacity heap1 r)) ∧
    (LengthWithinCapacity heap a → LengthWithinCapacity heap b →
      ∃ r heap1, kk_axpy cblas_daxpy a b α heap = some (r, heap1)) ∧
    (LengthWithinCapacity heap a → LengthWithinCapacity heap b →
      a.internal.owned ≠ b.internal.owned →
      ∃ ra rb heap1, kk_rot cblas_drot a b c s heap = some ((ra, rb), heap1)) ∧
    (LengthWithinCapacity heap a → LengthWithinCapacity heap b →
      a.internal.owned ≠ b.internal.owned →
      4 ≤ (heap.store h_matrix.internal.owned).length →
      ∃ ra rb heap1, kk_rotm cblas_drotm a b flag h_matrix heap = some ((ra, rb), heap1)) ∧
    (LengthWithinCapacity heap a →
      ∃ r heap1, kk_scal cblas_dscal a α heap = some (r, heap1)) := by
  refine ⟨?_, ?_, ?_, ?_, ?_, ?_, ?_, ?_, ?_⟩
  · obtain ⟨heap1, hrun, hblk, -⟩ := kk_vector_blasvector_spec seq heap
    refine ⟨_, heap1, hrun, ?_, ?_⟩
    · simp [capacity, hblk]
    · simp [LengthWithinCapacity, capacity, hblk]
  · intro r heap1 h
    obtain ⟨hr, hk⟩ := kk_axpy_of_some a b r α heap heap1 h
    obtain ⟨hlen, -⟩ := cblas_daxpy_of_some _ _ _ _ _ _ hk
    subst hr
    refine ⟨rfl, hlen _, min_le_right _ _, fun hb => ?_⟩
    have h1 : min a.length b.length ≤ b.length := min_le_right _ _
    have h2 : b.length ≤ ((heap.store b.internal.owned).length : Int) := hb
    have h3 := hlen b.internal.owned
    simp only [LengthWithinCapacity, capacity]
    omega
  · intro ra rb heap1 h
    obtain ⟨hra, hrb, hk⟩ := kk_rot_of_some a b ra rb c s heap heap1 h
    obtain ⟨hlen, -⟩ := cblas_drot_of_some _ _ _ _ _ _ _ hk
    subst hra hrb
    exact ⟨⟨rfl, hlen _, le_rfl, lengthWithinCapacity_of_length_eq heap heap1 ra (hlen _)⟩,
      ⟨rfl, hlen _, le_rfl, lengthWithinCapacity_of_length_eq heap heap1 rb (hlen _)⟩⟩
  · intro ra rb heap1 h
    obtain ⟨hra, hrb, param, hk⟩ := kk_rotm_of_some a b ra rb flag h_matrix heap heap1 h
    obtain ⟨hlen, -⟩ := cblas_drotm_of_some _ _ _ _ _ _ hk
    subst hra hrb
    exact ⟨⟨rfl, hlen _, le_rfl, lengthWithinCapacity_of_length_eq heap heap1 ra (hlen _)⟩,
      ⟨rfl, hlen _, le_rfl, lengthWithinCapacity_of_length_eq heap heap1 rb (hlen _)⟩⟩
  · intro r heap1 h
    obtain ⟨hr, hk⟩ := kk_scal_of_some a r α heap heap1 h
    obtain ⟨hlen, -⟩ := cblas_dscal_of_some _ _ _ _ _ hk
    subst hr
    exact ⟨rfl, hlen _, le_rfl, lengthWithinCapacity_of_length_eq heap heap1 r (hlen _)⟩
  · intro ha hb
    obtain ⟨heap1, hrun, -⟩ :=
      cblas_daxpy_spec (min a.length b.length) α a.internal.owned b.internal.owned heap
        (toNat_min_le_left heap a b.length ha) (toNat_min_le_right heap b a.length hb)
    exact ⟨_, heap1, by rw [kk_axpy_calls, hrun]; rfl⟩
  · intro ha hb hab
    obtain ⟨heap1, hrun, -⟩ :=
      cblas_drot_spec (min a.length b.length) a.internal.owned b.internal.owned c s heap hab
        (toNat_min_le_left heap a b.length ha) (toNat_min_le_right heap b a.length hb)
    exact ⟨a, b, heap1, by rw [kk_rot_calls, hrun]; rfl⟩
  · intro ha hb hab hm
    obtain ⟨m0, m1, m2, m3, h0, h1, h2, h3⟩ := four_cells _ hm
    obtain ⟨heap1, hrun, -⟩ :=
      cblas_drotm_spec (min a.length b.length) a.internal.owned b.internal.owned
        ![flag, m0, m1, m2, m3] heap hab
        (toNat_min_le_left heap a b.length ha) (toNat_min_le_right heap b a.length hb)
    have hcall := kk_rotm_calls cblas_drotm a b flag h_matrix heap m0 m1 m2 m3 h0 h1 h2 h3
    exact ⟨a, b, heap1, by rw [hcall, hrun]; rfl⟩
  · intro ha
    have hcap : a.length.toNat ≤ (heap.store a.internal.owned).length := by
      have h2 : a.length ≤ ((heap.store a.internal.owned).length : Int) := ha
      omega
    obtain ⟨heap1, hrun, -⟩ := cblas_dscal_spec a.length α a.internal.owned heap hcap
    refine ⟨a, heap1, ?_⟩
    simp only [kk_scal, kk_cptr_raw_unbox_borrowed, hrun, Option.map_some']

/-- Witness of C9.  On the heap with nothing allocated, the sequence `[5, 6]`
becomes a vector of length 2 and capacity 2.  On the heap of the second
AxpyAdd example (no matrix anywhere) `kk_axpy` and `kk_scal` return vectors
within capacity.  On the heap with `a = [1, 2, 3]`, `b = [10, 20]` and a
matrix, `kk_rot` and `kk_rotm` return. -/
theorem length_within_capacity_invariant_witness :
    ((∃ bv heap1, kk_vector_blasvector (([5, 6] : List Int).map kk_double_box) heapEmpty
          = some (bv, heap1) ∧
        (capacity heap1 bv : Int) = bv.length ∧ LengthWithinCapacity heap1 bv) ∧
      (kk_vector_blasvector (([5, 6] : List Int).map kk_double_box) heapEmpty).map
        (fun r => (r.1, capacity r.2 r.1)) = some (⟨2, ⟨0⟩⟩, 2)) ∧
    ((LengthWithinCapacity heapAxpy2 ⟨2, ⟨0⟩⟩ ∧ LengthWithinCapacity heapAxpy2 ⟨3, ⟨1⟩⟩) ∧
      (∃ r heap1, kk_axpy cblas_daxpy ⟨2, ⟨0⟩⟩ ⟨3, ⟨1⟩⟩ 2 heapAxpy2 = some (r, heap1)) ∧
      (∀ r heap1, kk_axpy cblas_daxpy ⟨2, ⟨0⟩⟩ ⟨3, ⟨1⟩⟩ 2 heapAxpy2 = some (r, heap1) →
        r.internal = ⟨1⟩ ∧ capacity heap1 r = capacity heapAxpy2 ⟨3, ⟨1⟩⟩ ∧ r.length ≤ 3 ∧
        (LengthWithinCapacity heapAxpy2 ⟨3, ⟨1⟩⟩ → LengthWithinCapacity heap1 r)) ∧
      (∃ r heap1, kk_scal cblas_dscal ⟨2, ⟨0⟩⟩ 2 heapAxpy2 = some (r, heap1)) ∧
      (∀ r heap1, kk_scal cblas_dscal ⟨2, ⟨0⟩⟩ 2 heapAxpy2 = some (r, heap1) →
        r.internal = ⟨0⟩ ∧ capacity heap1 r = capacity heapAxpy2 ⟨2, ⟨0⟩⟩ ∧ r.length ≤ 2 ∧
        (LengthWithinCapacity heapAxpy2 ⟨2, ⟨0⟩⟩ → LengthWithinCapacity heap1 r)) ∧
      (kk_axpy cblas_daxpy ⟨2, ⟨0⟩⟩ ⟨3, ⟨1⟩⟩ 2 heapAxpy2).map
        (fun r => (r.1, capacity r.2 r.1)) = some (⟨2, ⟨1⟩⟩, 3)) ∧
    ((LengthWithinCapacity heapRot ⟨3, ⟨0⟩⟩ ∧ LengthWithinCapacity heapRot ⟨2, ⟨1⟩⟩ ∧
        (0 : Nat) ≠ 1 ∧ 4 ≤ (heapRot.store 2).length) ∧
      (∃ ra rb heap1, kk_rot cblas_drot ⟨3, ⟨0⟩⟩ ⟨2, ⟨1⟩⟩ 2 3 heapRot
        = some ((ra, rb), heap1)) ∧
      (∃ ra rb heap1, kk_rotm cblas_drotm ⟨3, ⟨0⟩⟩ ⟨2, ⟨1⟩⟩ (-1) ⟨2, 2, ⟨2⟩⟩ heapRot
        = some ((ra, rb), heap1)) ∧
      (kk_rot cblas_drot ⟨3, ⟨0⟩⟩ ⟨2, ⟨1⟩⟩ 2 3 heapRot).map
        (fun r => (r.1, capacity r.2 r.1.1, capacity r.2 r.1.2))
        = some ((⟨3, ⟨0⟩⟩, ⟨2, ⟨1⟩⟩), 3, 2) ∧
      (kk_rotm cblas_drotm ⟨3, ⟨0⟩⟩ ⟨2, ⟨1⟩⟩ (-1) ⟨2, 2, ⟨2⟩⟩ heapRot).map
        (fun r => (r.1, capacity r.2 r.1.1, capacity r.2 r.1.2))
        = some ((⟨3, ⟨0⟩⟩, ⟨2, ⟨1⟩⟩), 3, 2)) :=
  ⟨⟨(length_within_capacity_invariant [5, 6] ⟨0, ⟨0⟩⟩ ⟨0, ⟨0⟩⟩ 0 0 0 0 ⟨2, 2, ⟨0⟩⟩
        heapEmpty).1,
      by decide⟩,
    ⟨⟨by decide, by decide⟩,
      (length_within_capacity_invariant [] ⟨2, ⟨0⟩⟩ ⟨3, ⟨1⟩⟩ 2 2 3 (-1) ⟨2, 2, ⟨2⟩⟩
        heapAxpy2).2.2.2.2.2.1 (by decide) (by decide),
      (length_within_capacity_invariant [] ⟨2, ⟨0⟩⟩ ⟨3, ⟨1⟩⟩ 2 2 3 (-1) ⟨2, 2, ⟨2⟩⟩
        heapAxpy2).2.1,
      (length_within_capacity_invariant [] ⟨2, ⟨0⟩⟩ ⟨3, ⟨1⟩⟩ 2 2 3 (-1) ⟨2, 2, ⟨2⟩⟩
        heapAxpy2).2.2.2.2.2.2.2.2 (by decide),
      (length_within_capacity_invariant [] ⟨2, ⟨0⟩⟩ ⟨3, ⟨1⟩⟩ 2 2 3 (-1) ⟨2, 2, ⟨2⟩⟩
        heapAxpy2).2.2.2.2.1,
      by decide⟩,
    ⟨⟨by decide, by decide, by decide, by decide⟩,
      (length_within_capacity_invariant [] ⟨3, ⟨0⟩⟩ ⟨2, ⟨1⟩⟩ 2 2 3 (-1) ⟨2, 2, ⟨2⟩⟩
        heapRot).2.2.2.2.2.2.1 (by decide) (by decide) (by decide),
      (length_within_capacity_invariant [] ⟨3, ⟨0⟩⟩ ⟨2, ⟨1⟩⟩ 2 2 3 (-1) ⟨2, 2, ⟨2⟩⟩
        heapRot).2.2.2.2.2.2.2.1 (by decide) (by decide) (by decide) (by decide),
      by decide, by decide⟩⟩

/-- C10 (ModifiedRotate).  With `m0, …, m3` the first four cells of the matrix
buffer: whatever kernel `kk_rotm` is given, the call is that kernel applied
once to the length `min a.length b.length`, the two buffers and the array
`[flag, m0, m1, m2, m3]`, and the result pairs `(a, b)`, in that order and with
their length fields as given, with the heap the kernel leaves.  With the
reference kernel, vectors within capacity on different buffers and the matrix
on a buffer of its own, the call is defined and the matrix buffer is the same
afterwards. -/
theorem kk_rotm_correct {D : Type} [LinearOrderedRing D]
    (a b : kk_math_vector__blasvector) (flag : D) (h_matrix : kk_math_matrix__blasmatrix)
    (heap : Heap D) (m0 m1 m2 m3 : D)
    (h0 : (heap.store h_matrix.internal.owned)[0]? = some m0)
    (h1 : (heap.store h_matrix.internal.owned)[1]? = some m1)
    (h2 : (heap.store h_matrix.internal.owned)[2]? = some m2)
    (h3 : (heap.store h_matrix.internal.owned)[3]? = some m3)
    (ha : LengthWithinCapacity heap a) (hb : LengthWithinCapacity heap b)
    (hab : a.internal.owned ≠ b.internal.owned)
    (hma : h_matrix.internal.owned ≠ a.internal.owned)
    (hmb : h_matrix.internal.owned ≠ b.internal.owned) :
    (∀ drotm : Int → Nat → Nat → (Fin 5 → D) → Heap D → Option (Heap D),
      kk_rotm drotm a b flag h_matrix heap
        = (drotm (min a.length b.length) a.internal.owned b.internal.owned
              ![flag, m0, m1, m2, m3] heap).map
            fun heap1 => ((a, b), heap1)) ∧
    ∃ heap1 : Heap D,
      kk_rotm cblas_drotm a b flag h_matrix heap = some ((a, b), heap1) ∧
      heap1.store h_matrix.internal.owned = heap.store h_matrix.internal.owned := by
  refine ⟨fun K => kk_rotm_calls K a b flag h_matrix heap m0 m1 m2 m3 h0 h1 h2 h3, ?_⟩
  obtain ⟨heap1, hrun, -, hframe, -⟩ :=
    cblas_drotm_spec (min a.length b.length) a.internal.owned b.internal.owned
      ![flag, m0, m1, m2, m3] heap hab (toNat_min_le_left heap a _ ha)
      (toNat_min_le_right heap b _ hb)
  have hcall := kk_rotm_calls cblas_drotm a b flag h_matrix heap m0 m1 m2 m3 h0 h1 h2 h3
  exact ⟨heap1, by rw [hcall, hrun]; rfl, hframe _ hma hmb⟩

/-- Witness of C10: `a = [1, 2, 3]`, `b = [10, 20]`, `flag = -1` and the matrix
cells `[2, 0, 0, 2]`: the kernel gets the length `2` and the array
`[-1, 2, 0, 0, 2]`. -/
theorem kk_rotm_correct_witness :
    ((heapRot.store 2)[0]? = some 2 ∧ (heapRot.store 2)[1]? = some 0 ∧
      (heapRot.store 2)[2]? = some 0 ∧ (heapRot.store 2)[3]? = some 2 ∧
      LengthWithinCapacity heapRot ⟨3, ⟨0⟩⟩ ∧ LengthWithinCapacity heapRot ⟨2, ⟨1⟩⟩ ∧
      (0 : Nat) ≠ 1 ∧ (2 : Nat) ≠ 0 ∧ (2 : Nat) ≠ 1) ∧
    ((∀ drotm : Int → Nat → Nat → (Fin 5 → Int) → Heap Int → Option (Heap Int),
      kk_rotm drotm ⟨3, ⟨0⟩⟩ ⟨2, ⟨1⟩⟩ (-1) ⟨2, 2, ⟨2⟩⟩ heapRot
        = (drotm (min 3 2) 0 1 ![-1, 2, 0, 0, 2] heapRot).map
            fun heap1 => ((⟨3, ⟨0⟩⟩, ⟨2, ⟨1⟩⟩), heap1)) ∧
    ∃ heap1 : Heap Int,
      kk_rotm cblas_drotm ⟨3, ⟨0⟩⟩ ⟨2, ⟨1⟩⟩ (-1) ⟨2, 2, ⟨2⟩⟩ heapRot
        = some ((⟨3, ⟨0⟩⟩, ⟨2, ⟨1⟩⟩), heap1) ∧
      heap1.store 2 = heapRot.store 2) ∧
    (kk_rotm cblas_drotm ⟨3, ⟨0⟩⟩ ⟨2, ⟨1⟩⟩ (-1) ⟨2, 2, ⟨2⟩⟩ heapRot).map
        (fun r => (r.1, r.2.store 0, r.2.store 1, r.2.store 2))
      = some ((⟨3, ⟨0⟩⟩, ⟨2, ⟨1⟩⟩), [2, 4, 3], [20, 40], [2, 0, 0, 2]) :=
  ⟨⟨by decide, by decide, by decide, by decide, by decide, by decide, by decide, by decide,
      by decide⟩,
    kk_rotm_correct ⟨3, ⟨0⟩⟩ ⟨2, ⟨1⟩⟩ (-1) ⟨2, 2, ⟨2⟩⟩ heapRot 2 0 0 2
      (by decide) (by decide) (by decide) (by decide) (by decide) (by decide) (by decide)
      (by decide) (by decide),
    by decide⟩

/-- C5 (ModifiedRotateGen), what the code does: whatever the kernel returns,
`kk_rotmg` gives back the tuple `(d1', d2', x1', y1)` and entry `0` of the
parameter array as the kernel left them, and a fresh 2×2 matrix at the address
`heap.next`; but no statement stores anything in the matrix buffer, so its four
cells hold the uninitialised contents of the allocation and not the entries
`1` to `4` of the parameter array. -/
theorem kk_rotmg_matrix_uninitialised {D : Type} [Zero D]
    (drotmg : D → D → D → D → (Fin 5 → D) → D × D × D × (Fin 5 → D))
    (d1 d2 x1 y1 : D) (heap : Heap D) :
    (kk_rotmg drotmg d1 d2 x1 y1 heap).1
      = (((drotmg d1 d2 x1 y1 fun _ => 0).1, (drotmg d1 d2 x1 y1 fun _ => 0).2.1,
            (drotmg d1 d2 x1 y1 fun _ => 0).2.2.1, y1),
          (drotmg d1 d2 x1 y1 fun _ => 0).2.2.2 0,
          ⟨2, 2, ⟨heap.next⟩⟩) ∧
    (kk_rotmg drotmg d1 d2 x1 y1 heap).2.store heap.next
      = [heap.uninit 0, heap.uninit 1, heap.uninit 2, heap.uninit 3] ∧
    ∀ p, p ≠ heap.next → (kk_rotmg drotmg d1 d2 x1 y1 heap).2.store p = heap.store p := by
  refine ⟨rfl, ?_, fun p hp => ?_⟩
  · simp [kk_rotmg, malloc, List.range_succ]
  · simp [kk_rotmg, malloc, Function.update_noteq hp]

end KokaMath
